import Mathlib

/-!
Verification of the convolution-based cellular automaton engine of the
`vivludo` repository (`vivludo/automata.py`, `vivludo/utils.py`).

Arrays (`numpy` 2-d integer arrays) are embedded as `List (List Nat)`.
Where object identity matters (caller-owned arrays, `np.copy`, views), a
small explicit store of arrays is used; where only values matter, the
engine is embedded value-level.
-/

/-- A 2-d integer array (`numpy` array of non-negative integers). -/
abbrev Arr : Type := List (List Nat)

/-- Wrap an integer index into `[0, n)` (toroidal boundary, `boundary="wrap"`
of `scipy.signal.convolve2d`). -/
def wrapIdx (n : Nat) (i : Int) : Nat := (i % (n : Int)).toNat

/-- Value-level state of `ConvCA` (`automata.py`, class `ConvCA`): the
precomputed update array, the integer kernel, the edge mode, the fill value
and the current cell array.  A `ConvCA` before `set_state` has
`cell_array = None` in the source; the value-level embedding uses `[]`,
which no verified statement ever steps. -/
structure CAv where
  update_array : List Nat
  kernel : Arr
  edges : String
  edge_fill : Nat
  cell_array : Arr
deriving DecidableEq

/-- Reading the (conceptually infinite) input of `convolve2d` at integer
coordinates: `boundary="wrap"` reads the grid cyclically, `boundary="fill"`
reads the fill value outside the grid. -/
def gridAt (g : Arr) (edges : String) (fill : Nat) (i j : Int) : Nat :=
  if edges = "wrap" then
    (g.getD (wrapIdx g.length i) []).getD (wrapIdx (g.getD 0 []).length j) 0
  else
    if 0 ≤ i ∧ i < (g.length : Int) ∧ 0 ≤ j ∧ j < ((g.getD 0 []).length : Int) then
      (g.getD i.toNat []).getD j.toNat 0
    else fill

/-- One output value of `convolve2d(cell_array, kernel, mode="same")`: the
`same` output at `(i, j)` is the full convolution at `(i + ch, j + cw)`
with `ch = (kh-1)/2`, `cw = (kw-1)/2`, and the full convolution at `(u, v)`
is `Σ kernel[p][q] * input[u-p][v-q]`. -/
def convAt (ca : CAv) (i j : Nat) : Nat :=
  let kh := ca.kernel.length
  let kw := (ca.kernel.getD 0 []).length
  let ch := (kh - 1) / 2
  let cw := (kw - 1) / 2
  ((List.range kh).map (fun p =>
    ((List.range kw).map (fun q =>
      (ca.kernel.getD p []).getD q 0 *
        gridAt ca.cell_array ca.edges ca.edge_fill
          ((i : Int) + (ch : Int) - (p : Int)) ((j : Int) + (cw : Int) - (q : Int)))).sum)).sum

/-- `ConvCA.step`: convolve the current grid with the kernel and look every
cell's value up in the update array
(`self.cell_array = self.update_array[convolve2d(...)]`).  The numpy lookup
is embedded with `List.getD _ _ 0`; an out-of-range lookup (an `IndexError`
in the source) does not occur in any verified statement, whose hypotheses
keep every convolution value inside the table. -/
def stepv (ca : CAv) : CAv :=
  { ca with cell_array :=
      (List.range ca.cell_array.length).map (fun i =>
        (List.range (ca.cell_array.getD 0 []).length).map (fun j =>
          ca.update_array.getD (convAt ca i j) 0)) }

/-- `ConvCA.set_state`, value level: `np.copy` of the argument has the same
value, so the engine's cell array value becomes the argument's value. -/
def setStatev (ca : CAv) (g : Arr) : CAv := { ca with cell_array := g }

/-- `ConvCA.copy_state`, value level: the value of the returned copy. -/
def copyStatev (ca : CAv) : Arr := ca.cell_array

/-- Python's `str.lower()` for the ASCII neighbourhood names
(`nb = nb.lower()` in the source). -/
def strLower (s : String) : String := String.mk (s.data.map Char.toLower)

/-! ## The generation sequencer (`ConvCA.n_generations`)

The source is a generator running the loop

```
count = 0
while count < n or n < 0:
    if count > 0: self.step()
    if n >= 0: count += 1
    yield self.copy_state()
```

For `n ≥ 0` the loop terminates and `ngLoop` below is its direct
translation (yields collected into a list).  For `n < 0` the loop never
terminates; `genIter`/`genState`/`genYield`/`genLive` give the
iteration-indexed small-step view of the very same loop body, used to state
what the infinite run yields. -/

/-- One iteration of the `n_generations` loop body, from the loop state
`(count, engine)`: step when `count > 0`, increment `count` when `n ≥ 0`,
and yield `copy_state()` (its value). -/
def genIter (n : Int) (st : Nat × CAv) : (Nat × CAv) × Arr :=
  let ca2 := if 0 < st.1 then stepv st.2 else st.2
  let count2 := if 0 ≤ n then st.1 + 1 else st.1
  ((count2, ca2), copyStatev ca2)

/-- Loop state of `n_generations` before iteration `k` (iteration 0 starts
from `count = 0` and the engine at call time). -/
def genState (n : Int) (ca : CAv) : Nat → Nat × CAv
  | 0 => (0, ca)
  | k + 1 => (genIter n (genState n ca k)).1

/-- The snapshot yielded by iteration `k` of the `n_generations` loop. -/
def genYield (n : Int) (ca : CAv) (k : Nat) : Arr := (genIter n (genState n ca k)).2

/-- The loop guard `count < n or n < 0` of `n_generations`, evaluated before
iteration `k`: iteration `k` runs (and yields) exactly when this holds. -/
def genLive (n : Int) (ca : CAv) (k : Nat) : Bool :=
  decide (((genState n ca k).1 : Int) < n) || decide (n < 0)

/-- The terminating (`n ≥ 0`) run of the `n_generations` loop, collecting
the yielded snapshots.  `rem` is `n - count`, the number of iterations the
guard `count < n` still grants (the guard holds iff `rem > 0`, and each
iteration increments `count`, so `rem` decreases by one). -/
def ngLoop (ca : CAv) (count : Nat) : Nat → List Arr
  | 0 => []
  | rem + 1 =>
      let ca2 := if 0 < count then stepv ca else ca
      copyStatev ca2 :: ngLoop ca2 (count + 1) rem

/-- `ConvCA.n_generations(n)` for `n ≥ 0`: the list of yielded snapshots,
starting from `count = 0` with `n` iterations granted (for `n < 0` the
source generator never terminates; that run is described by
`genYield`/`genLive`). -/
def n_generations (ca : CAv) (n : Int) : List Arr := ngLoop ca 0 n.toNat

/-! ## A store of arrays, for the claims about object identity

numpy arrays are mutable heap objects; `np.copy` allocates a fresh one.
`Store` models the heap cells whose identity the claims mention: arrays the
caller passes in and arrays handed back to the caller. -/

/-- The heap of arrays; a reference is an index into `arrays`. -/
structure Store where
  arrays : List Arr
deriving DecidableEq

/-- Read the array behind a reference. -/
def Store.read (s : Store) (r : Nat) : Arr := s.arrays.getD r []

/-- Mutate the array behind a reference in place. -/
def Store.write (s : Store) (r : Nat) (v : Arr) : Store := ⟨s.arrays.set r v⟩

/-- Allocate a fresh array holding `v`; returns the new store and the fresh
reference. -/
def Store.alloc (s : Store) (v : Arr) : Store × Nat := (⟨s.arrays ++ [v]⟩, s.arrays.length)

/-- `np.copy(a)`: allocate a fresh array with the same value. -/
def npCopy (s : Store) (r : Nat) : Store × Nat := s.alloc (s.read r)

/-- `ConvCA.set_state`, store level
(`self.cell_array = np.copy(cell_array)`): the engine's new cell reference
is a fresh copy of the caller's array. -/
def CA.set_state (s : Store) (g : Nat) : Store × Nat := npCopy s g

/-- `ConvCA.copy_state`, store level (`return np.copy(self.cell_array)`):
the caller receives a fresh copy of the engine's cell array. -/
def CA.copy_state (s : Store) (cell : Nat) : Store × Nat := npCopy s cell

/-! ## Errors

The source raises `TypeError` / `ValueError`; the constructors below name
those failures by the specification's error taxonomy.  `truthValueAmbiguous`
is the `ValueError` numpy raises when a multi-element array is used as a
condition (`if not weights:` with an ndarray argument). -/

inductive CAErr where
  | invalidEdgeMode
  | invalidRuleNumber
  | invalidRuleSyntax
  | unknownNeighborhood
  | truthValueAmbiguous
deriving DecidableEq

/-- Whether an `Except` result is a success. -/
def exceptIsOk {α : Type} (e : Except CAErr α) : Bool :=
  match e with
  | .ok _ => true
  | .error _ => false

/-! ## The elementary automaton (`class ECA`) -/

/-- A Python value passed as the rule number: either an `int` or anything
else (`type(n) != int` raises `TypeError` in the source). -/
inductive PyVal where
  | int (n : Int)
  | nonInt
deriving DecidableEq

/-- The engine `ECA.__init__` builds for a valid rule number `n`:
`update_array` is the 8-bit binary expansion of `n` least-significant bit
first (`reversed(format(n, "08b"))`), and the kernel is `[[1, 2, 4]]`. -/
def ECA.engine (n : Nat) (edges : String) (fill : Nat) : CAv :=
  { update_array := (List.range 8).map (fun k => n / 2 ^ k % 2),
    kernel := [[1, 2, 4]],
    edges := edges,
    edge_fill := fill,
    cell_array := [] }

/-- `ECA.__init__`: reject a non-`int` (`TypeError`), reject `n > 255` or
`n < 0` (`ValueError`) — both named `invalidRuleNumber` here — then build
the engine (`ConvCA.__init__` validates the edge mode). -/
def ECA.make (v : PyVal) (edges : String) (fill : Nat) : Except CAErr CAv :=
  match v with
  | .nonInt => .error .invalidRuleNumber
  | .int n =>
      if 255 < n ∨ n < 0 then .error .invalidRuleNumber
      else
        if edges = "wrap" ∨ edges = "fixed" then .ok (ECA.engine n.toNat edges fill)
        else .error .invalidEdgeMode

/-- `ECA.set_state`: wrap the 1-d state into a 1×N grid
(`self.cell_array = np.copy([cell_array])`). -/
def ECA.setState (ca : CAv) (row : List Nat) : CAv := { ca with cell_array := [row] }

/-! ## Life-like automata (`class LifeLike`) -/

/-- The rule argument of `LifeLike`: either a `"B<digits>/S<digits>"` string
or a pair of digit lists (`[[3], [2, 3]]`). -/
inductive Rule where
  | str (s : String)
  | pair (live survive : List Nat)

/-- The `weights` argument of `LifeLike`: absent (`None`), a Python list of
lists, or a numpy array living in the store. -/
inductive Weights where
  | none
  | pylist (m : Arr)
  | ndarray (r : Nat)

/-- `np.flip` of a 2-d array value: reverse both axes. -/
def flip2d (m : Arr) : Arr := (m.map List.reverse).reverse

/-- Write `v` at position `(i, j)` of a 2-d array value. -/
def set2d (m : Arr) (i j : Nat) (v : Nat) : Arr := m.set i ((m.getD i []).set j v)

/-- Sum of all entries of a 2-d array value (`kernel.sum()`). -/
def sum2d (m : Arr) : Nat := (m.map List.sum).sum

/-- Number of elements of a 2-d array (`a.size` in numpy). -/
def numElems (m : Arr) : Nat := (m.map List.length).sum

/-- Writing at `(i, j)` of the `np.flip` view of an array mutates the
underlying array at the mirrored position. -/
def flipSet (a : Arr) (i j v : Nat) : Arr :=
  set2d a (a.length - 1 - i) ((a.getD (a.length - 1 - i) []).length - 1 - j) v

/-- Python's truthiness of the `weights` argument (`if not weights:`):
`None` is falsy; a list is truthy iff non-empty; `bool()` of a numpy array
raises `ValueError` when it has more than one element, and is the
truthiness of the single element otherwise. -/
def truthy (s : Store) (w : Weights) : Except CAErr Bool :=
  match w with
  | .none => .ok false
  | .pylist m => .ok (decide (m ≠ []))
  | .ndarray r =>
      let a := s.read r
      if numElems a ≤ 1 then .ok (a.flatten.any (fun x => decide (x ≠ 0)))
      else .error .truthValueAmbiguous

/-- The kernel computation of `LifeLike.parse` (lines 78–89): either the
all-ones `(2r+1)×(2r+1)` kernel with the centre zeroed, summed, and set to
`weight_sum + 1`, or the same centre surgery on `np.flip(weights)`.
`np.flip` of a Python list first materialises a fresh array (the caller's
list is untouched); `np.flip` of a numpy array is a view, so the centre
writes go through to the stored array.  Returns the updated store, the
kernel value and `weight_sum`. -/
def parseKernelPart (s : Store) (r : Nat) (w : Weights) :
    Except CAErr (Store × Arr × Nat) :=
  match truthy s w with
  | .error e => .error e
  | .ok t =>
      if t = false then
        let size := 2 * r + 1
        let k0 : Arr := List.replicate size (List.replicate size 1)
        let k1 := set2d k0 r r 0
        let ws := sum2d k1
        .ok (s, set2d k1 r r (ws + 1), ws)
      else
        match w with
        | .pylist m =>
            let k0 := flip2d m
            let k1 := set2d k0 r r 0
            let ws := sum2d k1
            .ok (s, set2d k1 r r (ws + 1), ws)
        | .ndarray rr =>
            let a := s.read rr
            let a1 := flipSet a r r 0
            let ws := sum2d (flip2d a1)
            let a2 := flipSet a1 r r (ws + 1)
            .ok (s.write rr a2, flip2d a2, ws)
        | .none => .ok (s, [], 0)    -- unreachable: `truthy` of `None` is false

/-- The digit values of a list of characters, when all are digits
(one capture group `(\d*)` of the rule regex). -/
def digitsOfChars (cs : List Char) : Option (List Nat) :=
  if cs.all Char.isDigit then some (cs.map (fun c => c.toNat - 48)) else none

/-- Strip one optional leading marker character (`[bB]?` / `[sS]?`). -/
def stripLead (lo hi : Char) (cs : List Char) : List Char :=
  match cs with
  | c :: rest => if c = lo ∨ c = hi then rest else cs
  | [] => []

/-- Split a character list at every `/`. -/
def splitSlash : List Char → List (List Char)
  | [] => [[]]
  | c :: rest =>
      if c = '/' then [] :: splitSlash rest
      else
        match splitSlash rest with
        | g :: gs => (c :: g) :: gs
        | [] => [[c]]

/-- The rule-string regex `^[bB]?(\d*)/[sS]?(\d*)$` of `LifeLike.parse`:
exactly one `/`, each side an optional marker followed by digits. -/
def parseBS (str : String) : Option (List Nat × List Nat) :=
  match splitSlash str.data with
  | [bpart, spart] =>
      match digitsOfChars (stripLead 'b' 'B' bpart),
            digitsOfChars (stripLead 's' 'S' spart) with
      | some live, some survive => some (live, survive)
      | _, _ => none
  | _ => none

/-- The rule-decoding half of `LifeLike.parse` (lines 91–100): a 2-list
argument is taken as the `(live, survive)` pair directly; otherwise the
string is matched against the regex, a failure raising `ValueError`
(the specification's `InvalidRuleSyntax`). -/
def ruleToPair (rule : Rule) : Except CAErr (List Nat × List Nat) :=
  match rule with
  | .pair live survive => .ok (live, survive)
  | .str str =>
      match parseBS str with
      | some p => .ok p
      | Option.none => .error .invalidRuleSyntax

/-- `LifeLike.parse`: kernel computation first, then rule decoding, then
`living = live + [weight_sum + 1 + i for i in survive]` and the update
array `[1 if i in living else 0 for i in range(2*(weight_sum+1))]`.
The store is returned alongside the result because the kernel computation
may have written through a view before a rule-syntax failure. -/
def LifeLike.parse (s : Store) (rule : Rule) (r : Nat) (w : Weights) :
    Store × Except CAErr (List Nat × Arr) :=
  match parseKernelPart s r w with
  | .error e => (s, .error e)
  | .ok (s2, kernel, ws) =>
      match ruleToPair rule with
      | .error e => (s2, .error e)
      | .ok (live, survive) =>
          let living := live ++ survive.map (fun i => ws + 1 + i)
          let upd := (List.range (2 * (ws + 1))).map (fun i => if i ∈ living then 1 else 0)
          (s2, .ok (upd, kernel))

/-- `LifeLike.__init__`: run `parse`, then `ConvCA.__init__` (which
validates the edge mode). -/
def LifeLike.make (s : Store) (rule : Rule) (edges : String) (fill r : Nat) (w : Weights) :
    Store × Except CAErr CAv :=
  match LifeLike.parse s rule r w with
  | (s2, .error e) => (s2, .error e)
  | (s2, .ok (upd, kernel)) =>
      if edges = "wrap" ∨ edges = "fixed" then
        (s2, .ok { update_array := upd, kernel := kernel, edges := edges,
                   edge_fill := fill, cell_array := [] })
      else (s2, .error .invalidEdgeMode)

/-! ## Non-totalistic automata (`class NonTotalistic`, `utils.py`) -/

/-- `utils.nb_sizes`.  An unknown name is a `KeyError` in the source; the
default `0` is never reached in any verified statement, which all restrict
`nb` to the supported names. -/
def nb_sizes (nb : String) : Nat :=
  if nb = "moore" then 9
  else if nb = "von neumann" then 5
  else if nb = "extended" then 9
  else 0

/-- `utils.nb_patterns`: the boolean inclusion masks. -/
def nb_patterns (nb : String) : Arr :=
  if nb = "moore" then [[1, 1, 1], [1, 1, 1], [1, 1, 1]]
  else if nb = "von neumann" then [[0, 1, 0], [1, 1, 1], [0, 1, 0]]
  else if nb = "extended" then
    [[0, 0, 1, 0, 0], [0, 0, 1, 0, 0], [1, 1, 1, 1, 1], [0, 0, 1, 0, 0], [0, 0, 1, 0, 0]]
  else []

/-- `utils.nb_exponents`: the positional exponent tables, flipped in the
source (`np.flip([...])`) because convolution flips them back. -/
def nb_exponents (nb : String) : Arr :=
  if nb = "moore" then flip2d [[0, 1, 2], [3, 4, 5], [6, 7, 8]]
  else if nb = "von neumann" then flip2d [[0, 0, 0], [1, 2, 3], [0, 4, 0]]
  else if nb = "extended" then
    flip2d [[0, 0, 0, 0, 0], [0, 0, 1, 0, 0], [2, 3, 4, 5, 6], [0, 0, 7, 0, 0], [0, 0, 8, 0, 0]]
  else []

/-- Elementwise combination of two 2-d arrays (numpy broadcasting of `*`
and `**` over same-shaped arrays). -/
def zip2d (f : Nat → Nat → Nat) (a b : Arr) : Arr := List.zipWith (List.zipWith f) a b

/-- `NonTotalistic.parse_kernel`:
`nb_patterns[nb] * (base * nb_patterns[nb]) ** nb_exponents[nb]`
after lowercasing; an unsupported name raises `ValueError` (the
specification's `UnknownNeighborhood`). -/
def NonTotalistic.parse_kernel (base : Nat) (nb : String) : Except CAErr Arr :=
  let nb2 := strLower nb
  if nb2 = "moore" ∨ nb2 = "von neumann" ∨ nb2 = "extended" then
    .ok (zip2d (· * ·) (nb_patterns nb2)
          (zip2d (fun x e => (base * x) ^ e) (nb_patterns nb2) (nb_exponents nb2)))
  else .error .unknownNeighborhood

/-- `itertools.product(range(b), repeat=s)`: all `s`-tuples over
`0..b-1` in lexicographic order, first coordinate slowest. -/
def productTuples (b : Nat) : Nat → List (List Nat)
  | 0 => [[]]
  | s + 1 => ((List.range b).map (fun d => (productTuples b s).map (fun t => d :: t))).flatten

/-- `poss.reshape(3, 3)` of a 9-element pattern (row-major). -/
def reshape3 (p : List Nat) : Arr :=
  [[p.getD 0 0, p.getD 1 0, p.getD 2 0],
   [p.getD 3 0, p.getD 4 0, p.getD 5 0],
   [p.getD 6 0, p.getD 7 0, p.getD 8 0]]

/-- `utils.func_to_update_array`: enumerate every neighbourhood pattern,
flip it (`np.flip(poss)`, i.e. reverse), reshape to 3×3 for the Moore
neighbourhood, and record the rule function's answer.  The rule function
receives a 3×3 array for Moore and the flat pattern (as a 1×s array value)
for the other neighbourhoods. -/
def func_to_update_array (f : Arr → Nat) (base : Nat) (nb : String) : List Nat :=
  let nb2 := strLower nb
  (productTuples base (nb_sizes nb2)).map (fun poss =>
    let poss2 := poss.reverse
    if nb2 = "moore" then f (reshape3 poss2) else f [poss2])

/-- The `rule` argument of `NonTotalistic`: a callable, or any non-callable
value (which the source takes to be a precomputed update array — "We make
the dangerous assumption that this is an update array"). -/
inductive NTRule where
  | func (f : Arr → Nat)
  | value (v : List Nat)

/-- `NonTotalistic.parse_rule`: a callable is tabulated through
`func_to_update_array`; anything else is returned unchanged, with no
validation and no error path. -/
def NonTotalistic.parse_rule (rule : NTRule) (base : Nat) (nb : String) : List Nat :=
  match rule with
  | .func f => func_to_update_array f base nb
  | .value v => v

/-- `NonTotalistic.__init__`: `parse_kernel` (which may raise), then
`parse_rule`, then `ConvCA.__init__` (which validates the edge mode). -/
def NonTotalistic.make (rule : NTRule) (base : Nat) (nb edges : String) (fill : Nat) :
    Except CAErr CAv :=
  match NonTotalistic.parse_kernel base nb with
  | .error e => .error e
  | .ok kernel =>
      let upd := NonTotalistic.parse_rule rule base nb
      if edges = "wrap" ∨ edges = "fixed" then
        .ok { update_array := upd, kernel := kernel, edges := edges,
              edge_fill := fill, cell_array := [] }
      else .error .invalidEdgeMode

/-- The value of a pattern read as a base-`b` numeral, least-significant
digit first (the flipped tuple `poss` satisfies `poss[j] = (k / b^j) % b`
at enumeration index `k`, so the enumeration index of a flipped pattern is
its base-`b` value). -/
def baseVal (b : Nat) : List Nat → Nat
  | [] => 0
  | d :: rest => d + b * baseVal b rest

/-- The 2-d neighbourhood contents corresponding to a flat pattern: the
pattern entries are placed at the mask positions in row-major order (the
layout documented in `func_to_update_array`; positions outside the mask are
irrelevant to the encoding and set to 0). -/
def gridOfPattern (nb : String) (p : List Nat) : Arr :=
  if nb = "moore" then reshape3 p
  else if nb = "von neumann" then
    [[0, p.getD 0 0, 0],
     [p.getD 1 0, p.getD 2 0, p.getD 3 0],
     [0, p.getD 4 0, 0]]
  else if nb = "extended" then
    [[0, 0, p.getD 0 0, 0, 0],
     [0, 0, p.getD 1 0, 0, 0],
     [p.getD 2 0, p.getD 3 0, p.getD 4 0, p.getD 5 0, p.getD 6 0],
     [0, 0, p.getD 7 0, 0, 0],
     [0, 0, p.getD 8 0, 0, 0]]
  else []

/-- The convolution index the kernel assigns to a neighbourhood whose
contents are `g`: convolution applies the flipped kernel to the
neighbourhood (`Σ kernel[p][q] * input[u-p][v-q]`), so the index is the
elementwise product of `np.flip(kernel)` with `g`, summed. -/
def kernelEncode (base : Nat) (nb : String) (g : Arr) : Nat :=
  match NonTotalistic.parse_kernel base nb with
  | .ok k => sum2d (zip2d (· * ·) (flip2d k) g)
  | .error _ => 0

/-- The argument `func_to_update_array` hands to the rule function for the
pattern `p`: the 3×3 reshape for Moore, the flat pattern otherwise. -/
def patternArg (nb : String) (p : List Nat) : Arr :=
  if nb = "moore" then reshape3 p else [p]

/-- A concrete engine used by the `n_generations` examples: elementary
rule 255 on the single-cell state `[0]` (one step turns the cell on). -/
def caW : CAv := ECA.setState (ECA.engine 255 "wrap" 0) [0]

/-- A store holding one 3×3 numpy array of ones (a caller's custom weights
array). -/
def storeW : Store := ⟨[[[1, 1, 1], [1, 1, 1], [1, 1, 1]]]⟩

/-- The empty store. -/
def store0 : Store := ⟨[]⟩


/-! ## General list lemmas -/

theorem vl_getD_append_len {α : Type} (l : List α) (a d : α) :
    (l ++ [a]).getD l.length d = a := by
  induction l with
  | nil => rfl
  | cons x xs ih => simp [ih]

theorem vl_getD_append_lt {α : Type} (l xs : List α) (j : Nat) (d : α)
    (h : j < l.length) : (l ++ xs).getD j d = l.getD j d := by
  induction l generalizing j with
  | nil => simp at h
  | cons x t ih =>
      cases j with
      | zero => rfl
      | succ j2 => simpa using ih j2 (by simpa using h)

theorem vl_getD_set_ne {α : Type} (l : List α) (i j : Nat) (v d : α) (h : i ≠ j) :
    (l.set i v).getD j d = l.getD j d := by
  induction l generalizing i j with
  | nil => rfl
  | cons x t ih =>
      cases i with
      | zero =>
          cases j with
          | zero => exact absurd rfl h
          | succ j2 => rfl
      | succ i2 =>
          cases j with
          | zero => rfl
          | succ j2 => simpa using ih i2 j2 (by omega)

theorem vl_getD_set_self {α : Type} (l : List α) (i : Nat) (v d : α) (h : i < l.length) :
    (l.set i v).getD i d = v := by
  induction l generalizing i with
  | nil => simp at h
  | cons x t ih =>
      cases i with
      | zero => rfl
      | succ i2 => simpa using ih i2 (by simpa using h)

theorem vl_getD_replicate {α : Type} (n i : Nat) (x d : α) :
    (List.replicate n x).getD i d = if i < n then x else d := by
  induction n generalizing i with
  | zero => simp
  | succ m ih =>
      cases i with
      | zero => simp
      | succ i2 =>
          rw [List.replicate_succ, List.getD_cons_succ, ih i2]
          by_cases h : i2 < m <;> simp [h]

theorem vl_getD_le (l : List Nat) (k c : Nat) (h : ∀ x ∈ l, x ≤ c) : l.getD k 0 ≤ c := by
  induction l generalizing k with
  | nil => simp [List.getD]
  | cons x t ih =>
      cases k with
      | zero => exact h x (by simp)
      | succ k2 => exact ih k2 (fun y hy => h y (by simp [hy]))

theorem vl_sum_set_add (l : List Nat) (i v : Nat) (h : i < l.length) :
    (l.set i v).sum + l.getD i 0 = l.sum + v := by
  induction l generalizing i with
  | nil => simp at h
  | cons x t ih =>
      cases i with
      | zero => simp [Nat.add_comm, Nat.add_left_comm]
      | succ i2 =>
          have := ih i2 (by simpa using h)
          simp only [List.set_cons_succ, List.sum_cons, List.getD_cons_succ]
          omega

theorem vl_map_set {α β : Type} (l : List α) (i : Nat) (a : α) (f : α → β) :
    (l.set i a).map f = (l.map f).set i (f a) := by
  induction l generalizing i with
  | nil => rfl
  | cons x t ih =>
      cases i with
      | zero => rfl
      | succ i2 => simp [ih i2]

theorem vl_sum_replicate (n x : Nat) : (List.replicate n x).sum = n * x := by
  induction n with
  | zero => simp
  | succ m ih => simp [List.replicate_succ, ih, Nat.succ_mul, Nat.add_comm]

theorem vl_set_set {α : Type} (l : List α) (i : Nat) (a b : α) :
    (l.set i a).set i b = l.set i b := by
  induction l generalizing i with
  | nil => rfl
  | cons x t ih =>
      cases i with
      | zero => rfl
      | succ i2 => simp [ih i2]

theorem vl_set_replicate {α : Type} (n i : Nat) (x y : α) (h : i < n) :
    (List.replicate n x).set i y = (List.range n).map (fun j => if j = i then y else x) := by
  induction n generalizing i with
  | zero => simp at h
  | succ m ih =>
      rw [List.range_succ_eq_map, List.replicate_succ]
      cases i with
      | zero =>
          simp only [List.set_cons_zero, List.map_cons, if_pos rfl]
          congr 1
          rw [List.map_map]
          have : (List.range m).map ((fun j => if j = 0 then y else x) ∘ Nat.succ)
              = (List.range m).map (fun _ => x) := by
            apply List.map_congr_left
            intro a _
            simp
          rw [this, List.map_const', List.length_range]
      | succ i2 =>
          simp only [List.set_cons_succ, List.map_cons, if_neg (by omega : ¬(0 = i2 + 1))]
          congr 1
          rw [ih i2 (by omega), List.map_map]
          apply List.map_congr_left
          intro a _
          simp only [Function.comp_apply, Nat.succ_eq_add_one]
          by_cases ha : a = i2 <;> simp [ha]

/-! ## Claim C4: `set_state` / `copy_state` round trip and non-aliasing -/

/-- Claim C4: `copy_state()` immediately after `set_state(g)` returns an
array equal in shape and values to `g`; the engine's cell array, the
caller's array `g` and the returned copy are three distinct heap cells, so
mutating `g` after `set_state`, or mutating the returned copy, leaves the
engine's internal grid state unchanged. -/
theorem C4_set_copy_roundtrip (s : Store) (g : Nat) (hg : g < s.arrays.length) :
    (CA.copy_state (CA.set_state s g).1 (CA.set_state s g).2).1.read
        (CA.copy_state (CA.set_state s g).1 (CA.set_state s g).2).2 = s.read g
    ∧ (CA.set_state s g).2 ≠ g
    ∧ (CA.copy_state (CA.set_state s g).1 (CA.set_state s g).2).2 ≠ (CA.set_state s g).2
    ∧ (∀ v, ((CA.copy_state (CA.set_state s g).1 (CA.set_state s g).2).1.write g v).read
          (CA.set_state s g).2
        = (CA.copy_state (CA.set_state s g).1 (CA.set_state s g).2).1.read
            (CA.set_state s g).2)
    ∧ (∀ v, ((CA.copy_state (CA.set_state s g).1 (CA.set_state s g).2).1.write
          (CA.copy_state (CA.set_state s g).1 (CA.set_state s g).2).2 v).read
          (CA.set_state s g).2
        = (CA.copy_state (CA.set_state s g).1 (CA.set_state s g).2).1.read
            (CA.set_state s g).2) := by
  simp only [CA.set_state, CA.copy_state, npCopy, Store.alloc, Store.read, Store.write]
  have hv0 : (s.arrays ++ [s.arrays.getD g []]).getD s.arrays.length []
      = s.arrays.getD g [] := vl_getD_append_len _ _ _
  refine ⟨?_, ?_, ?_, ?_, ?_⟩
  · rw [vl_getD_append_len]
    exact hv0
  · omega
  · simp only [List.length_append, List.length_cons, List.length_nil]
    omega
  · intro v
    exact vl_getD_set_ne _ _ _ _ _ (by omega)
  · intro v
    refine vl_getD_set_ne _ _ _ _ _ ?_
    simp only [List.length_append, List.length_cons, List.length_nil]
    omega

/-- Witness for claim C4 at a concrete store. -/
theorem C4_set_copy_roundtrip_witness :
    (0 < (Store.mk [[[5, 7]]]).arrays.length)
    ∧ (CA.copy_state (CA.set_state (Store.mk [[[5, 7]]]) 0).1
          (CA.set_state (Store.mk [[[5, 7]]]) 0).2).1.read
        (CA.copy_state (CA.set_state (Store.mk [[[5, 7]]]) 0).1
          (CA.set_state (Store.mk [[[5, 7]]]) 0).2).2 = (Store.mk [[[5, 7]]]).read 0 :=
  ⟨by decide, (C4_set_copy_roundtrip (Store.mk [[[5, 7]]]) 0 (by decide)).1⟩

/-! ## Claim C9: validation of the elementary rule number -/

/-- Claim C9: `ECA` construction fails (with the specification's
`InvalidRuleNumber`) exactly when the argument is not an integer or is an
integer outside `[0, 255]`; every integer in `[0, 255]` is accepted. -/
theorem C9_eca_rule_validation (v : PyVal) :
    (∃ e, ECA.make v "wrap" 0 = .error e)
      ↔ (v = .nonInt ∨ ∃ n : Int, v = .int n ∧ (n < 0 ∨ 255 < n)) := by
  cases v with
  | nonInt => simp [ECA.make]
  | int n =>
      by_cases h : 255 < n ∨ n < 0
      · rw [ECA.make, if_pos h]
        simp only [reduceCtorEq, PyVal.int.injEq, false_or]
        constructor
        · intro _
          exact ⟨n, rfl, by omega⟩
        · intro _
          exact ⟨.invalidRuleNumber, rfl⟩
      · rw [ECA.make, if_neg h, if_pos (Or.inl rfl)]
        simp only [reduceCtorEq, PyVal.int.injEq, false_or]
        constructor
        · rintro ⟨e, he⟩
          exact absurd he (by simp)
        · rintro ⟨m, hm, hrange⟩
          cases hm
          omega

/-! ## Claim C8: the non-totalistic rule argument is not validated -/

/-- Claim C8 counterexample: a non-callable rule argument that is not a
valid update table (the empty list, for base 2 on the Moore neighbourhood a
valid table would have 512 entries) is accepted: construction succeeds and
produces an automaton, raising no `InvalidRuleSpec` error. -/
theorem C8_counterexample :
    exceptIsOk (NonTotalistic.make (.value []) 2 "moore" "wrap" 0) = true := by rfl

/-- Claim C8 amended: `NonTotalistic.parse_rule` performs no validation on
a non-callable rule argument — the value is used unchanged as the update
table ("We make the dangerous assumption that this is an update array"),
and construction succeeds for any supported neighbourhood. -/
theorem C8_amended (v : List Nat) (base : Nat) (nb : String)
    (hnb : nb = "moore" ∨ nb = "von neumann" ∨ nb = "extended") :
    NonTotalistic.parse_rule (.value v) base nb = v
    ∧ ∃ ca, NonTotalistic.make (.value v) base nb "wrap" 0 = .ok ca
        ∧ ca.update_array = v := by
  refine ⟨rfl, ?_⟩
  rcases hnb with rfl | rfl | rfl <;> exact ⟨_, rfl, rfl⟩

/-- Witness for claim C8 at a concrete invalid table. -/
theorem C8_amended_witness :
    NonTotalistic.parse_rule (.value [9, 9]) 3 "von neumann" = [9, 9]
    ∧ ∃ ca, NonTotalistic.make (.value [9, 9]) 3 "von neumann" "wrap" 0 = .ok ca
        ∧ ca.update_array = [9, 9] :=
  C8_amended [9, 9] 3 "von neumann" (by simp)

/-! ## Claim C7: non-square custom weights are not rejected -/

/-- Claim C7 counterexample: a 2×3 (non-square) custom weight matrix is
accepted — `LifeLike` construction succeeds and produces an automaton,
raising no `InvalidKernelShape` error (the source has no shape check;
"Should probably add checks for shape and dtype"). -/
theorem C7_counterexample :
    exceptIsOk (LifeLike.make store0 (.pair [3] [2, 3]) "wrap" 0 1
      (.pylist [[1, 2, 3], [4, 5, 6]])).2 = true := by rfl

/-- Claim C7 amended: `LifeLike.parse` performs no squareness validation:
for any non-empty list-of-lists weights matrix whose centre index `(r, r)`
is in range (so that the centre writes do not raise `IndexError`),
construction succeeds, square or not. -/
theorem C7_amended (s : Store) (live survive : List Nat) (r : Nat) (m : Arr)
    (hm : m ≠ []) (_hrow : r < m.length) (_hcol : ∀ row ∈ m, r < row.length) :
    ∃ upd kern, LifeLike.parse s (.pair live survive) r (.pylist m) = (s, .ok (upd, kern)) := by
  rw [LifeLike.parse, parseKernelPart, truthy, decide_eq_true hm]
  exact ⟨_, _, rfl⟩

/-- Witness for claim C7 at a concrete non-square matrix. -/
theorem C7_amended_witness :
    ∃ upd kern, LifeLike.parse store0 (.pair [3] [2, 3]) 1 (.pylist [[1, 2, 3], [4, 5, 6]])
      = (store0, .ok (upd, kern)) :=
  C7_amended store0 [3] [2, 3] 1 [[1, 2, 3], [4, 5, 6]] (by decide) (by decide)
    (by decide)

/-! ## Claim C10: supplied weights arrays are not written through -/

/-- Claim C10 counterexample: with a multi-element numpy weights array,
construction raises (`bool()` of a multi-element array is ambiguous) at
`if not weights:`, before `np.flip` and before any centre write — the
caller's array is left unchanged, contrary to the claimed mutation. -/
theorem C10_counterexample :
    LifeLike.parse storeW (.pair [3] [2, 3]) 1 (.ndarray 0)
      = (storeW, .error .truthValueAmbiguous) := by rfl

/-- Claim C10 amended: a caller-supplied weights matrix is never mutated
through `np.flip`: a multi-element ndarray makes the truthiness test raise
before any flip or write (store returned unchanged), and a Python-list
weights argument is copied into a fresh array by `np.flip`, so `parse`
leaves the store unchanged on every list input as well. -/
theorem C10_amended (s : Store) (rr : Nat) (rule : Rule) (r : Nat) (m : Arr) :
    (2 ≤ numElems (s.read rr) →
        LifeLike.parse s rule r (.ndarray rr) = (s, .error .truthValueAmbiguous))
    ∧ (LifeLike.parse s rule r (.pylist m)).1 = s := by
  constructor
  · intro h2
    rw [LifeLike.parse, parseKernelPart, truthy]
    rw [if_neg (by omega)]
  · rw [LifeLike.parse, parseKernelPart, truthy]
    rcases Bool.dichotomy (decide (m ≠ [])) with hb | hb <;> rw [hb]
    · cases hrp : ruleToPair rule <;> rfl
    · cases hrp : ruleToPair rule <;> rfl

/-- Witness for claim C10 at a concrete store and weights. -/
theorem C10_amended_witness :
    LifeLike.parse storeW (.pair [3] [2, 3]) 1 (.ndarray 0)
        = (storeW, .error .truthValueAmbiguous)
    ∧ (LifeLike.parse storeW (.pair [3] [2, 3]) 1 (.pylist [[1]])).1 = storeW :=
  ⟨(C10_amended storeW 0 (.pair [3] [2, 3]) 1 [[1]]).1 (by decide),
   (C10_amended storeW 0 (.pair [3] [2, 3]) 1 [[1]]).2⟩


/-! ## Claim C6: Conway's Game of Life kills an isolated cell -/

/-- Claim C6: the automaton built from `"B3/S23"` (Moore neighbourhood,
radius 1, wrap edges), on the 3×3 grid whose only live cell is the centre,
steps to the all-dead grid. -/
theorem C6_life_isolated_cell_dies :
    (LifeLike.make store0 (.str "B3/S23") "wrap" 0 1 .none).2.map
        (fun ca => (stepv (setStatev ca [[0, 0, 0], [0, 1, 0], [0, 0, 0]])).cell_array)
      = .ok [[0, 0, 0], [0, 0, 0], [0, 0, 0]] := by rfl

/-! ## Claim C1: the generation sequencer -/

theorem vl_ngLoop_pos (rem : Nat) :
    ∀ (ca : CAv) (count : Nat), 1 ≤ count →
      ngLoop ca count rem = (List.range rem).map (fun t => (stepv^[t + 1] ca).cell_array) := by
  induction rem with
  | zero => intro ca count _; rfl
  | succ rem2 ih =>
      intro ca count hc
      show (if 0 < count then stepv ca else ca).cell_array ::
            ngLoop (if 0 < count then stepv ca else ca) (count + 1) rem2 = _
      rw [if_pos (by omega : 0 < count)]
      rw [ih (stepv ca) (count + 1) (by omega)]
      rw [List.range_succ_eq_map, List.map_cons, List.map_map]
      congr 1

theorem vl_ngLoop_zero (ca : CAv) (n : Nat) :
    ngLoop ca 0 n = (List.range n).map (fun k => (stepv^[k] ca).cell_array) := by
  cases n with
  | zero => rfl
  | succ m =>
      show ca.cell_array :: ngLoop ca 1 m = _
      rw [vl_ngLoop_pos m ca 1 le_rfl]
      rw [List.range_succ_eq_map, List.map_cons, List.map_map]
      rfl

theorem vl_genState_neg (n : Int) (hn : n < 0) (ca : CAv) :
    ∀ k, genState n ca k = (0, ca) := by
  intro k
  induction k with
  | zero => rfl
  | succ k2 ih =>
      show (genIter n (genState n ca k2)).1 = (0, ca)
      rw [ih]
      simp [genIter, if_neg (by omega : ¬(0 : Int) ≤ n)]

/-- Claim C1, amended: for `n ≥ 0` the generator yields exactly `n`
snapshots (not `n + 1`), the `k`-th (0-based) being the grid after `k`
steps — so the first is the call-time state and each later one is the
result of exactly one `step()`; for `n < 0` the loop guard holds at every
iteration (the generator yields indefinitely), but `count` is never
incremented, so no iteration ever calls `step()` and every yield equals
the unchanged call-time state. -/
theorem C1_n_generations (ca : CAv) (n : Int) :
    (0 ≤ n → n_generations ca n
        = (List.range n.toNat).map (fun k => (stepv^[k] ca).cell_array))
    ∧ (n < 0 → ∀ k, genLive n ca k = true ∧ genYield n ca k = ca.cell_array) := by
  constructor
  · intro _
    exact vl_ngLoop_zero ca n.toNat
  · intro hn k
    have hstate := vl_genState_neg n hn ca k
    constructor
    · rw [genLive, hstate]
      simp [hn]
    · rw [genYield, hstate]
      simp [genIter, copyStatev]

/-- Claim C1 counterexample: at `n = 0` the source yields no snapshot at
all (the claim asks for `n + 1 = 1`), and at `n = -1` the second yield is
not the result of a step — for the rule-255 elementary engine on `[0]` a
step would give `[1]`, yet the yield is still `[0]`. -/
theorem C1_counterexample :
    n_generations caW 0 = [] ∧ genYield (-1) caW 1 ≠ (stepv caW).cell_array := by
  constructor
  · rfl
  · decide

/-- Witness for claim C1 at concrete inputs. -/
theorem C1_n_generations_witness :
    n_generations caW 2 = (List.range (Int.toNat 2)).map (fun k => (stepv^[k] caW).cell_array)
    ∧ genYield (-1) caW 3 = caW.cell_array :=
  ⟨(C1_n_generations caW 2).1 (by decide), ((C1_n_generations caW (-1)).2 (by decide) 3).2⟩

/-! ## Claim C5: elementary rules 0 and 255 -/

theorem vl_row_nested_le (row : List Nat) (c k m : Nat) (h : ∀ x ∈ row, x ≤ c) :
    (([row] : Arr).getD k []).getD m 0 ≤ c := by
  cases k with
  | zero => exact vl_getD_le row m c h
  | succ k2 =>
      rw [List.getD_cons_succ]
      simp [List.getD]

theorem vl_gridAt_row_le (row : List Nat) (c : Nat) (h : ∀ x ∈ row, x ≤ c) (e : String)
    (fill : Nat) (hf : fill ≤ c) (i j : Int) : gridAt [row] e fill i j ≤ c := by
  rw [gridAt]
  split
  · exact vl_row_nested_le row c _ _ h
  · split
    · exact vl_row_nested_le row c _ _ h
    · exact hf

theorem vl_convAt_eca_le (ca : CAv) (row : List Nat)
    (hker : ca.kernel = [[1, 2, 4]]) (hcell : ca.cell_array = [row])
    (hfill : ca.edge_fill ≤ 1) (h01 : ∀ x ∈ row, x ≤ 1) (j : Nat) :
    convAt ca 0 j ≤ 7 := by
  have h1 := vl_gridAt_row_le row 1 h01 ca.edges ca.edge_fill hfill 0 ((j : Int) + 1)
  have h2 := vl_gridAt_row_le row 1 h01 ca.edges ca.edge_fill hfill 0 (j : Int)
  have h3 := vl_gridAt_row_le row 1 h01 ca.edges ca.edge_fill hfill 0 ((j : Int) + 1 - 2)
  simp [convAt, hker, hcell, List.range_succ]
  omega

/-- Claim C5: on any 0/1 state, one step of the wrap-mode elementary
automaton for rule 0 yields the all-zero state, and for rule 255 the
all-one state. -/
theorem C5_eca_rule0_rule255 (state : List Nat) (h01 : ∀ x ∈ state, x ≤ 1) :
    (stepv (ECA.setState (ECA.engine 0 "wrap" 0) state)).cell_array
        = [List.replicate state.length 0]
    ∧ (stepv (ECA.setState (ECA.engine 255 "wrap" 0) state)).cell_array
        = [List.replicate state.length 1] := by
  constructor
  · show (List.range (1 : Nat)).map (fun i => (List.range state.length).map (fun j =>
        (ECA.engine 0 "wrap" 0).update_array.getD
          (convAt (ECA.setState (ECA.engine 0 "wrap" 0) state) i j) 0))
      = [List.replicate state.length 0]
    rw [List.range_succ, List.range_zero, List.nil_append, List.map_cons, List.map_nil]
    congr 1
    have hz : ∀ j ∈ List.range state.length,
        (ECA.engine 0 "wrap" 0).update_array.getD
          (convAt (ECA.setState (ECA.engine 0 "wrap" 0) state) 0 j) 0
        = (fun _ => (0 : Nat)) j := by
      intro j _
      have hall : ∀ x ∈ (ECA.engine 0 "wrap" 0).update_array, x ≤ 0 := by decide
      exact Nat.le_zero.mp (vl_getD_le _ _ 0 hall)
    rw [List.map_congr_left hz, List.map_const', List.length_range]
  · show (List.range (1 : Nat)).map (fun i => (List.range state.length).map (fun j =>
        (ECA.engine 255 "wrap" 0).update_array.getD
          (convAt (ECA.setState (ECA.engine 255 "wrap" 0) state) i j) 0))
      = [List.replicate state.length 1]
    rw [List.range_succ, List.range_zero, List.nil_append, List.map_cons, List.map_nil]
    congr 1
    have hone : ∀ j ∈ List.range state.length,
        (ECA.engine 255 "wrap" 0).update_array.getD
          (convAt (ECA.setState (ECA.engine 255 "wrap" 0) state) 0 j) 0
        = (fun _ => (1 : Nat)) j := by
      intro j _
      have hb : convAt (ECA.setState (ECA.engine 255 "wrap" 0) state) 0 j ≤ 7 :=
        vl_convAt_eca_le (ECA.setState (ECA.engine 255 "wrap" 0) state) state rfl rfl
          (Nat.zero_le 1) h01 j
      have hupd : (ECA.engine 255 "wrap" 0).update_array = List.replicate 8 1 := by decide
      rw [hupd, vl_getD_replicate, if_pos (by omega)]
    rw [List.map_congr_left hone, List.map_const', List.length_range]

/-- Witness for claim C5 on the concrete state `[1, 0, 1]`. -/
theorem C5_eca_rule0_rule255_witness :
    (stepv (ECA.setState (ECA.engine 0 "wrap" 0) [1, 0, 1])).cell_array
        = [List.replicate 3 0]
    ∧ (stepv (ECA.setState (ECA.engine 255 "wrap" 0) [1, 0, 1])).cell_array
        = [List.replicate 3 1] :=
  C5_eca_rule0_rule255 [1, 0, 1] (by decide)

/-! ## Claim C2: the life-like kernel and update table -/

theorem vl_default_ws (r : Nat) :
    sum2d (set2d (List.replicate (2 * r + 1) (List.replicate (2 * r + 1) (1 : Nat))) r r 0)
      = (2 * r + 1) * (2 * r + 1) - 1 := by
  have hr : r < 2 * r + 1 := by omega
  have hrowsum : (List.replicate (2 * r + 1) (1 : Nat)).sum = (2 * r + 1) * 1 :=
    vl_sum_replicate _ _
  have hgetD1 : (List.replicate (2 * r + 1) (1 : Nat)).getD r 0 = 1 := by
    rw [vl_getD_replicate, if_pos hr]
  have h1 := vl_sum_set_add (List.replicate (2 * r + 1) (1 : Nat)) r 0 (by simpa using hr)
  rw [hgetD1, hrowsum] at h1
  rw [set2d, sum2d, vl_getD_replicate, if_pos hr, vl_map_set, List.map_replicate]
  have h2 := vl_sum_set_add
      (List.replicate (2 * r + 1) ((List.replicate (2 * r + 1) (1 : Nat)).sum)) r
      (((List.replicate (2 * r + 1) (1 : Nat)).set r 0).sum) (by simpa using hr)
  rw [vl_getD_replicate, if_pos hr, hrowsum, vl_sum_replicate] at h2
  rw [hrowsum]
  simp only [Nat.mul_one] at h1 h2 ⊢
  set P := (2 * r + 1) * (2 * r + 1) with hP
  omega

theorem vl_default_kernel (r w : Nat) :
    set2d (set2d (List.replicate (2 * r + 1) (List.replicate (2 * r + 1) (1 : Nat))) r r 0) r r w
      = (List.range (2 * r + 1)).map (fun i => (List.range (2 * r + 1)).map (fun j =>
          if i = r ∧ j = r then w else 1)) := by
  have hr : r < 2 * r + 1 := by omega
  simp only [set2d]
  rw [vl_getD_replicate, if_pos hr]
  rw [vl_getD_set_self _ _ _ _ (by simpa using hr)]
  rw [vl_set_set, vl_set_set]
  rw [vl_set_replicate _ _ _ _ hr]
  apply List.map_congr_left
  intro i _
  by_cases hir : i = r
  · rw [hir, if_pos rfl, vl_set_replicate _ _ _ _ hr]
    apply List.map_congr_left
    intro j _
    by_cases hjr : j = r <;> simp [hjr]
  · rw [if_neg hir]
    symm
    have hconst : ∀ j ∈ List.range (2 * r + 1),
        (fun j => if i = r ∧ j = r then w else (1 : Nat)) j = (fun _ => (1 : Nat)) j := by
      intro j _
      simp [hir]
    rw [List.map_congr_left hconst, List.map_const', List.length_range]

theorem vl_mem_living (live survive : List Nat) (c v : Nat) :
    (v ∈ live ++ survive.map (fun i => c + i)) ↔ (v ∈ live ∨ (c ≤ v ∧ v - c ∈ survive)) := by
  rw [List.mem_append]
  apply or_congr_right
  constructor
  · intro hm
    rw [List.mem_map] at hm
    obtain ⟨i, hi, rfl⟩ := hm
    exact ⟨by omega, by simpa using hi⟩
  · rintro ⟨hc, hm⟩
    rw [List.mem_map]
    exact ⟨v - c, hm, by omega⟩

/-- Claim C2: for digit-set rules without custom weights, `LifeLike.parse`
builds the `(2r+1)×(2r+1)` all-ones kernel whose centre weight is the sum
of the non-centre weights (`(2r+1)² - 1`) plus one, and an update table of
length `2*(weight_sum+1)` whose entry at `v` is 1 exactly when `v` is in
the birth set (cell previously dead) or `v - (weight_sum+1)` is in the
survive set with `v ≥ weight_sum+1` (cell previously alive). -/
theorem C2_lifelike_parse (s : Store) (live survive : List Nat) (r : Nat) :
    LifeLike.parse s (.pair live survive) r .none
      = (s, .ok
          ((List.range (2 * ((2 * r + 1) * (2 * r + 1) - 1 + 1))).map (fun v =>
            if v ∈ live ∨ ((2 * r + 1) * (2 * r + 1) - 1 + 1 ≤ v
                ∧ v - ((2 * r + 1) * (2 * r + 1) - 1 + 1) ∈ survive) then 1 else 0),
           (List.range (2 * r + 1)).map (fun i => (List.range (2 * r + 1)).map (fun j =>
             if i = r ∧ j = r then (2 * r + 1) * (2 * r + 1) - 1 + 1 else 1)))) := by
  have key : LifeLike.parse s (.pair live survive) r .none
      = (s, .ok
          ((List.range (2 * (sum2d (set2d (List.replicate (2 * r + 1)
                (List.replicate (2 * r + 1) (1 : Nat))) r r 0) + 1))).map
            (fun i => if i ∈ live ++ survive.map (fun i2 =>
                sum2d (set2d (List.replicate (2 * r + 1)
                  (List.replicate (2 * r + 1) (1 : Nat))) r r 0) + 1 + i2) then 1 else 0),
           set2d (set2d (List.replicate (2 * r + 1)
               (List.replicate (2 * r + 1) (1 : Nat))) r r 0) r r
             (sum2d (set2d (List.replicate (2 * r + 1)
               (List.replicate (2 * r + 1) (1 : Nat))) r r 0) + 1))) := rfl
  rw [key, vl_default_ws r, vl_default_kernel r ((2 * r + 1) * (2 * r + 1) - 1 + 1)]
  have hU : (List.range (2 * ((2 * r + 1) * (2 * r + 1) - 1 + 1))).map
        (fun i => if i ∈ live ++ survive.map (fun i2 =>
            (2 * r + 1) * (2 * r + 1) - 1 + 1 + i2) then 1 else 0)
      = (List.range (2 * ((2 * r + 1) * (2 * r + 1) - 1 + 1))).map (fun v =>
            if v ∈ live ∨ ((2 * r + 1) * (2 * r + 1) - 1 + 1 ≤ v
                ∧ v - ((2 * r + 1) * (2 * r + 1) - 1 + 1) ∈ survive) then 1 else 0) := by
    apply List.map_congr_left
    intro v _
    exact if_congr (vl_mem_living live survive _ v) rfl rfl
  rw [hU]

/-! ## Claim C3: completeness of the non-totalistic update table -/

theorem vl_get?_append_left {β : Type} (l1 l2 : List β) (n : Nat) (h : n < l1.length) :
    (l1 ++ l2)[n]? = l1[n]? := by
  induction l1 generalizing n with
  | nil => simp at h
  | cons x t ih =>
      cases n with
      | zero => simp
      | succ n2 => simpa using ih n2 (by simpa using h)

theorem vl_get?_append_right_len {β : Type} (l1 l2 : List β) (n : Nat) :
    (l1 ++ l2)[l1.length + n]? = l2[n]? := by
  induction l1 with
  | nil => simp
  | cons x t ih => simpa [Nat.succ_add] using ih

theorem vl_flatten_length {β : Type} (L : List (List β)) :
    L.flatten.length = (L.map List.length).sum := by
  induction L with
  | nil => rfl
  | cons c L ih => simp [ih]

theorem vl_flatten_get {β : Type} :
    ∀ (L : List (List β)) (m d rem : Nat), (∀ c ∈ L, c.length = m) → d < L.length → rem < m →
      L.flatten[d * m + rem]? = (L[d]?).bind (fun cc => cc[rem]?) := by
  intro L
  induction L with
  | nil =>
      intro m d rem _ hd _
      simp at hd
  | cons c L ih =>
      intro m d rem hm hd hrem
      have hc : c.length = m := hm c (by simp)
      cases d with
      | zero =>
          rw [Nat.zero_mul, Nat.zero_add, List.flatten_cons,
            vl_get?_append_left _ _ _ (by omega)]
          simp
      | succ d2 =>
          rw [show (d2 + 1) * m + rem = c.length + (d2 * m + rem) by rw [hc]; ring]
          rw [List.flatten_cons, vl_get?_append_right_len,
            ih m d2 rem (fun c2 h2 => hm c2 (by simp [h2])) (by simpa using hd) hrem]
          simp

theorem vl_productTuples_length (b : Nat) : ∀ s, (productTuples b s).length = b ^ s := by
  intro s
  induction s with
  | zero => rfl
  | succ s2 ih =>
      rw [productTuples, vl_flatten_length, List.map_map]
      have hconst : (List.range b).map
            (List.length ∘ fun d => (productTuples b s2).map (fun t => d :: t))
          = (List.range b).map (fun _ => b ^ s2) := by
        apply List.map_congr_left
        intro d _
        simp [ih]
      rw [hconst, List.map_const', List.length_range, vl_sum_replicate, pow_succ]
      ring

theorem vl_baseVal_concat (b : Nat) (q : List Nat) (d : Nat) :
    baseVal b (q ++ [d]) = baseVal b q + d * b ^ q.length := by
  induction q with
  | nil => simp [baseVal]
  | cons x t ih =>
      show x + b * baseVal b (t ++ [d]) = x + b * baseVal b t + d * b ^ (t.length + 1)
      rw [ih, pow_succ]
      ring

theorem vl_baseVal_lt (b : Nat) (q : List Nat) (hq : ∀ x ∈ q, x < b) :
    baseVal b q < b ^ q.length := by
  induction q with
  | nil => simp [baseVal]
  | cons x t ih =>
      have hx : x < b := hq x (by simp)
      have ht : baseVal b t < b ^ t.length := ih (fun y hy => hq y (by simp [hy]))
      show x + b * baseVal b t < b ^ (t.length + 1)
      calc x + b * baseVal b t < b + b * baseVal b t := by omega
        _ = b * (baseVal b t + 1) := by ring
        _ ≤ b * b ^ t.length := Nat.mul_le_mul le_rfl (Nat.succ_le_of_lt ht)
        _ = b ^ (t.length + 1) := by rw [pow_succ]; ring

theorem vl_productTuples_get (b : Nat) :
    ∀ (p : List Nat), (∀ x ∈ p, x < b) →
      (productTuples b p.length)[baseVal b p]? = some p.reverse := by
  intro p
  induction p using List.reverseRecOn with
  | nil => intro _; rfl
  | append_singleton q d ih =>
      intro hp
      have hd : d < b := hp d (by simp)
      have hq : ∀ x ∈ q, x < b := fun x hx => hp x (by simp [hx])
      rw [show (q ++ [d]).length = q.length + 1 by simp]
      rw [productTuples, vl_baseVal_concat]
      have hm : ∀ c ∈ (List.range b).map (fun d2 => (productTuples b q.length).map
            (fun t => d2 :: t)), c.length = b ^ q.length := by
        intro c hc
        rw [List.mem_map] at hc
        obtain ⟨d2, _, rfl⟩ := hc
        simp [vl_productTuples_length]
      rw [show baseVal b q + d * b ^ q.length = d * b ^ q.length + baseVal b q by ring]
      rw [vl_flatten_get _ _ _ _ hm (by simpa using hd) (vl_baseVal_lt b q hq)]
      rw [List.getElem?_map, List.getElem?_range hd]
      show ((productTuples b q.length).map (fun t => d :: t))[baseVal b q]?
          = some (q ++ [d]).reverse
      rw [List.getElem?_map, ih hq]
      simp

theorem vl_futa_get (f : Arr → Nat) (b : Nat) (nb : String) (hlow : strLower nb = nb)
    (p : List Nat) (hlen : p.length = nb_sizes nb) (hp : ∀ x ∈ p, x < b) :
    (func_to_update_array f b nb)[baseVal b p]?
      = some (if nb = "moore" then f (reshape3 p) else f [p]) := by
  simp only [func_to_update_array, hlow]
  rw [← hlen, List.getElem?_map, vl_productTuples_get b p hp]
  simp

theorem vl_exists_cons_len {α : Type} (p : List α) (n : Nat) (h : p.length = n + 1) :
    ∃ a q, p = a :: q ∧ q.length = n := by
  cases p with
  | nil => simp at h
  | cons a q => exact ⟨a, q, rfl, by simpa using h⟩

/-- Claim C3: for every rule function, base `b ≥ 1` and supported
neighbourhood of size `s`, the constructed update table has length `b^s`
and, at the kernel-defined positional base-`b` encoding of any
neighbourhood pattern, holds exactly the rule function's answer for that
pattern (construction-time completeness). -/
theorem C3_nontotalistic_table (nb : String)
    (hnb : nb = "moore" ∨ nb = "von neumann" ∨ nb = "extended")
    (f : Arr → Nat) (b : Nat) (_hb : 1 ≤ b) (p : List Nat)
    (hlen : p.length = nb_sizes nb) (hp : ∀ x ∈ p, x < b) :
    (func_to_update_array f b nb).length = b ^ nb_sizes nb
    ∧ (func_to_update_array f b nb)[kernelEncode b nb (gridOfPattern nb p)]?
        = some (f (patternArg nb p)) := by
  have hlow : strLower nb = nb := by rcases hnb with rfl | rfl | rfl <;> decide
  constructor
  · simp only [func_to_update_array, hlow]
    rw [List.length_map, vl_productTuples_length]
  · rcases hnb with rfl | rfl | rfl
    · -- Moore neighbourhood
      have hlen9 : p.length = 9 := hlen
      obtain ⟨a0, p, rfl, h1⟩ := vl_exists_cons_len p 8 hlen9
      obtain ⟨a1, p, rfl, h2⟩ := vl_exists_cons_len p 7 h1
      obtain ⟨a2, p, rfl, h3⟩ := vl_exists_cons_len p 6 h2
      obtain ⟨a3, p, rfl, h4⟩ := vl_exists_cons_len p 5 h3
      obtain ⟨a4, p, rfl, h5⟩ := vl_exists_cons_len p 4 h4
      obtain ⟨a5, p, rfl, h6⟩ := vl_exists_cons_len p 3 h5
      obtain ⟨a6, p, rfl, h7⟩ := vl_exists_cons_len p 2 h6
      obtain ⟨a7, p, rfl, h8⟩ := vl_exists_cons_len p 1 h7
      obtain ⟨a8, p, rfl, h9⟩ := vl_exists_cons_len p 0 h8
      obtain rfl := List.length_eq_zero.mp h9
      have hpk : NonTotalistic.parse_kernel b "moore"
          = .ok (zip2d (· * ·) (nb_patterns "moore")
              (zip2d (fun x e => (b * x) ^ e) (nb_patterns "moore")
                (nb_exponents "moore"))) := rfl
      have henc : kernelEncode b "moore"
            (gridOfPattern "moore" [a0, a1, a2, a3, a4, a5, a6, a7, a8])
          = baseVal b [a0, a1, a2, a3, a4, a5, a6, a7, a8] := by
        simp only [kernelEncode, hpk]
        simp [nb_patterns, nb_exponents, flip2d, zip2d, sum2d, gridOfPattern,
          reshape3, baseVal]
        ring
      rw [henc]
      exact vl_futa_get f b "moore" (by decide) _ rfl hp
    · -- von Neumann neighbourhood
      have hlen5 : p.length = 5 := hlen
      obtain ⟨a0, p, rfl, h1⟩ := vl_exists_cons_len p 4 hlen5
      obtain ⟨a1, p, rfl, h2⟩ := vl_exists_cons_len p 3 h1
      obtain ⟨a2, p, rfl, h3⟩ := vl_exists_cons_len p 2 h2
      obtain ⟨a3, p, rfl, h4⟩ := vl_exists_cons_len p 1 h3
      obtain ⟨a4, p, rfl, h5⟩ := vl_exists_cons_len p 0 h4
      obtain rfl := List.length_eq_zero.mp h5
      have hpk : NonTotalistic.parse_kernel b "von neumann"
          = .ok (zip2d (· * ·) (nb_patterns "von neumann")
              (zip2d (fun x e => (b * x) ^ e) (nb_patterns "von neumann")
                (nb_exponents "von neumann"))) := rfl
      have henc : kernelEncode b "von neumann"
            (gridOfPattern "von neumann" [a0, a1, a2, a3, a4])
          = baseVal b [a0, a1, a2, a3, a4] := by
        simp only [kernelEncode, hpk]
        simp [nb_patterns, nb_exponents, flip2d, zip2d, sum2d, gridOfPattern,
          reshape3, baseVal]
        ring
      rw [henc]
      exact vl_futa_get f b "von neumann" (by decide) _ rfl hp
    · -- extended von Neumann neighbourhood
      have hlen9 : p.length = 9 := hlen
      obtain ⟨a0, p, rfl, h1⟩ := vl_exists_cons_len p 8 hlen9
      obtain ⟨a1, p, rfl, h2⟩ := vl_exists_cons_len p 7 h1
      obtain ⟨a2, p, rfl, h3⟩ := vl_exists_cons_len p 6 h2
      obtain ⟨a3, p, rfl, h4⟩ := vl_exists_cons_len p 5 h3
      obtain ⟨a4, p, rfl, h5⟩ := vl_exists_cons_len p 4 h4
      obtain ⟨a5, p, rfl, h6⟩ := vl_exists_cons_len p 3 h5
      obtain ⟨a6, p, rfl, h7⟩ := vl_exists_cons_len p 2 h6
      obtain ⟨a7, p, rfl, h8⟩ := vl_exists_cons_len p 1 h7
      obtain ⟨a8, p, rfl, h9⟩ := vl_exists_cons_len p 0 h8
      obtain rfl := List.length_eq_zero.mp h9
      have hpk : NonTotalistic.parse_kernel b "extended"
          = .ok (zip2d (· * ·) (nb_patterns "extended")
              (zip2d (fun x e => (b * x) ^ e) (nb_patterns "extended")
                (nb_exponents "extended"))) := rfl
      have henc : kernelEncode b "extended"
            (gridOfPattern "extended" [a0, a1, a2, a3, a4, a5, a6, a7, a8])
          = baseVal b [a0, a1, a2, a3, a4, a5, a6, a7, a8] := by
        simp only [kernelEncode, hpk]
        simp [nb_patterns, nb_exponents, flip2d, zip2d, sum2d, gridOfPattern,
          reshape3, baseVal]
        ring
      rw [henc]
      exact vl_futa_get f b "extended" (by decide) _ rfl hp

/-- Witness for claim C3: base 2, Moore neighbourhood, the rule reading the
pattern's top-left cell, on a concrete pattern. -/
theorem C3_nontotalistic_table_witness :
    (func_to_update_array (fun g => (g.getD 0 []).getD 0 0) 2 "moore").length
        = 2 ^ nb_sizes "moore"
    ∧ (func_to_update_array (fun g => (g.getD 0 []).getD 0 0) 2
          "moore")[kernelEncode 2 "moore"
            (gridOfPattern "moore" [1, 0, 0, 0, 0, 0, 0, 0, 1])]?
        = some ((fun g => (g.getD 0 []).getD 0 0)
            (patternArg "moore" [1, 0, 0, 0, 0, 0, 0, 0, 1])) :=
  C3_nontotalistic_table "moore" (by simp) (fun g => (g.getD 0 []).getD 0 0) 2
    (by decide) [1, 0, 0, 0, 0, 0, 0, 0, 1] (by decide) (by decide)
